import Mathlib

/-!
Verification of the `netbox-paas` plugin against its natural-language
specification.  The Python source (principally `netbox_paas/paas.py` and
`netbox_paas/models.py`) is shallowly embedded: pure fragments become Lean
functions, remote vendor calls become explicit call descriptors or oracles,
and Python dictionaries become association lists compared extensionally.
-/

namespace NetBoxPaaS

/-! ### Environment nodes (`PaaS.get_nodes`, paas.py lines 185-198) -/

/-- Shape of one entry of the `nodes` list of a `GetEnvInfo` response, with the
fields `get_nodes` reads. -/
structure Node where
  id : Nat
  nodeGroup : String
  ismaster : Bool
  deriving Repr, DecidableEq

/-- Result of `get_nodes`: the Python function returns either a single node
dict, the empty dict `{}` (when `is_master` is set and no master exists), or a
list of nodes. -/
inductive NodesResult where
  | single (n : Node)
  | emptyDict
  | list (ns : List Node)
  deriving Repr, DecidableEq

/-- Optional filtering of the node list by node group (`if node_group: ...`). -/
def groupFilter (nodes : List Node) (nodeGroup : Option String) : List Node :=
  match nodeGroup with
  | some g => nodes.filter (fun n => n.nodeGroup == g)
  | none => nodes

/-- Embedding of `PaaS.get_nodes`: filter by group, then when `is_master` take
the first node with `ismaster` set, catching the `IndexError` of `[0]` on an
empty list and returning `{}` instead. -/
def get_nodes (nodes : List Node) (nodeGroup : Option String) (isMaster : Bool) :
    NodesResult :=
  let ns := groupFilter nodes nodeGroup
  if isMaster then
    match (ns.filter (fun n => n.ismaster)).head? with
    | some n => NodesResult.single n
    | none => NodesResult.emptyDict
  else
    NodesResult.list ns

/-! ### Addon lifecycle (`PaaS.install_addon` / `PaaS.uninstall_addon`,
paas.py lines 258-277 and 397-444) -/

/-- Settings payload passed to the marketplace API (an opaque JSON object in
the source; concretised as key/value pairs). -/
abbrev AddonSettings := List (String × String)

/-- Shape of one entry of a `GetAddonList` response, with the fields the
lifecycle methods read (`app_id`, `isInstalled`, `uniqueName`). -/
structure Addon where
  app_id : String
  isInstalled : Bool
  uniqueName : String
  deriving Repr, DecidableEq

/-- Vendor marketplace call issued by the lifecycle methods. -/
inductive MarketplaceCall where
  | executeAction (appUniqueName : String) (action : String)
      (params : Option AddonSettings)
  | installAddon (envName : String) (id : String) (settings : Option AddonSettings)
      (nodeGroup : String)
  | uninstall (appUniqueName : String) (targetAppId : String) (appTemplateId : String)
  deriving Repr, DecidableEq

/-- Embedding of `PaaS.get_installed_addon`: the first addon of the list whose
`app_id` matches and whose `isInstalled` flag (defaulting to false) is set. -/
def get_installed_addon (addons : List Addon) (appId : String) : Option Addon :=
  addons.find? (fun a => a.app_id == appId && a.isInstalled)

/-- Embedding of `PaaS.install_addon`: when the addon is already installed,
issue `ExecuteAction` with the default action `"configure"`; otherwise issue
the vendor `InstallAddon` call.  `addons` is the `GetAddonList` response. -/
def install_addon (envName : String) (addons : List Addon) (appId : String)
    (nodeGroup : String) (addonSettings : Option AddonSettings) : MarketplaceCall :=
  match get_installed_addon addons appId with
  | some addon => MarketplaceCall.executeAction addon.uniqueName "configure" addonSettings
  | none => MarketplaceCall.installAddon envName appId addonSettings nodeGroup

/-- Result of `uninstall_addon`: either a vendor call or the locally built
`{"result": 0, "message": ...}` dict. -/
inductive UninstallResult where
  | vendor (c : MarketplaceCall)
  | localResult (result : Nat) (message : String)
  deriving Repr, DecidableEq

/-- Embedding of `PaaS.uninstall_addon`: when the addon is installed, issue the
vendor `Uninstall` call; otherwise perform no vendor call and return a result
of 0 with a message that the addon is not installed. -/
def uninstall_addon (envAppId : String) (addons : List Addon) (appId : String)
    (nodeGroup : String) : UninstallResult :=
  match get_installed_addon addons appId with
  | some addon => UninstallResult.vendor
      (MarketplaceCall.uninstall addon.uniqueName envAppId appId)
  | none => UninstallResult.localResult 0
      ("Addon " ++ appId ++ " is not installed on node group " ++ nodeGroup ++ ".")

/-! ### Background job execution (`PaaSJob._run_job`, paas.py lines 114-136) -/

/-- Job status choices used by `_run_job` (`terminate()` defaults to the
completed status; the except branch passes `STATUS_ERRORED`). -/
inductive JobStatus where
  | completed
  | errored
  deriving Repr, DecidableEq

/-- Data dict saved on the job: the call parameters plus either the function's
return value under `result` or the exception message under `error`. -/
structure JobData (V : Type) where
  params : List (String × String)
  result : Option V
  error : Option String
  deriving Repr, DecidableEq

/-- Observable effects `_run_job` performs on the job record. -/
inductive JobEvent (V : Type) where
  | start
  | terminate (status : JobStatus)
  | setData (d : JobData V)
  | save
  deriving Repr, DecidableEq

/-- Embedding of `PaaSJob._run_job`.  The wrapped function is an
`Except String V`: `Except.error e` plays the role of the function raising an
exception with message `e` (the broad `except Exception` branch), `Except.ok v`
of a normal return.  `params` are the keyword arguments without the internal
`_func` entry (popped before the call).  The returned list is the sequence of
effects on the job record. -/
def run_job (V : Type) (params : List (String × String)) (func : Except String V) :
    List (JobEvent V) :=
  let data : JobData V := ⟨params, none, none⟩
  match func with
  | Except.ok v =>
      [JobEvent.start, JobEvent.terminate JobStatus.completed,
       JobEvent.setData {data with result := some v}, JobEvent.save]
  | Except.error e =>
      [JobEvent.start, JobEvent.terminate JobStatus.errored,
       JobEvent.setData {data with error := some e}, JobEvent.save]

/-- Test for a terminate effect. -/
def JobEvent.isTerminate {V : Type} : JobEvent V → Bool
  | JobEvent.terminate _ => true
  | _ => false

/-- Test for a save effect. -/
def JobEvent.isSave {V : Type} : JobEvent V → Bool
  | JobEvent.save => true
  | _ => false

/-! ### Plugin file maps (`PaaSNetBox._enable_disable_plugin`, paas.py lines
633-667).  A plugins yaml file holds a Python dict mapping app labels to
settings; dicts are embedded as association lists in insertion order.  File
contents are compared extensionally (`List.lookup`), matching the yaml round
trip (`yaml.dump` emits keys sorted, `yaml.safe_load` rebuilds the dict). -/

/-- Python dict from plugin app labels to settings values. -/
abbrev PluginMap (V : Type) := List (String × V)

/-- Embedding of Python `d[label] = v`: replace the value in place when the key
is present, append the pair otherwise. -/
def dset {V : Type} (label : String) (v : V) : PluginMap V → PluginMap V
  | [] => [(label, v)]
  | p :: rest => if p.1 == label then (label, v) :: rest else p :: dset label v rest

/-- Embedding of Python `d.pop(label)` (the removal part): drop the entry with
the given key. -/
def dpop {V : Type} (label : String) : PluginMap V → PluginMap V
  | [] => []
  | p :: rest => if p.1 == label then rest else p :: dpop label rest

/-- Embedding of `PaaSNetBox._enable_disable_plugin` acting on the contents of
the two files: when the app label is in the source map, move its entry (with
its settings value) to the destination map and write both files back; when it
is absent, neither file is written.  Returns (source contents, destination
contents) after the call. -/
def enable_disable_plugin {V : Type} (source_plugins dest_plugins : PluginMap V)
    (app_label : String) : PluginMap V × PluginMap V :=
  match List.lookup app_label source_plugins with
  | some v => (dpop app_label source_plugins, dset app_label v dest_plugins)
  | none => (source_plugins, dest_plugins)

/-- Composition performed by `disable_plugin` followed by `enable_plugin` on
the pair (plugins file, disabled-plugins file): first move the label from the
plugins map to the disabled map, then move it back.  Returns (plugins contents,
disabled contents) after both calls. -/
def disable_then_enable {V : Type} (plugins disabled : PluginMap V)
    (app_label : String) : PluginMap V × PluginMap V :=
  let step1 := enable_disable_plugin plugins disabled app_label
  let step2 := enable_disable_plugin step1.2 step1.1 app_label
  (step2.2, step2.1)

/-! ### Node restarts (`PaaS.restart_nodes`, paas.py lines 337-380, and the
scheduling effect of `PaaS.run_script`, lines 306-335) -/

/-- Modelled from the spec: `NODE_GROUP_CP` is imported from
`netbox_paas/constants.py`, which is absent from the snapshot; the spec's
glossary and the claim name the control-plane node group `cp`, and the sibling
`netbox_cloud_pilot/constants.py` defines the same value. -/
def NODE_GROUP_CP : String := "cp"

/-- Remote effect of one iteration of `restart_nodes`: either a direct
`RestartNodes` API call, or (lazy mode) a restart script scheduled through
`run_script`, whose `CreateEnvTask` trigger converts the delay to milliseconds
(`delay = delay * 1000`). -/
inductive RestartResult where
  | direct (nodeGroup : String) (isSequential : Bool) (manageDnsState : Bool)
      (delay : Nat)
  | script (name : String) (description : String) (envName : String)
      (nodeGroup : String) (onceDelayMs : Nat)
  deriving Repr, DecidableEq

/-- Embedding of `PaaS.restart_nodes`: sort the node groups ascending, then per
group either schedule the `ncp-restart-` script (lazy mode, base delay for the
`cp` group and ten times the base delay for every other group) or issue a
sequential `RestartNodes` call; results are accumulated in iteration order. -/
def restart_nodes (envName : String) (node_groups : List String) (lazy : Bool)
    (delay : Nat) : List RestartResult :=
  let sorted_groups := node_groups.mergeSort (fun a b => a ≤ b)
  if lazy then
    sorted_groups.foldl
      (fun results g =>
        results ++ [RestartResult.script ("ncp-restart-" ++ g)
          ("Restart " ++ g ++ " nodes") envName g
          ((if g == NODE_GROUP_CP then delay else delay * 10) * 1000)])
      []
  else
    sorted_groups.foldl
      (fun results g =>
        results ++ [RestartResult.direct g true true delay])
      []

/-! ### Backup polling (`PaaSNetBox.db_backup` / `is_db_backup_running`,
paas.py lines 725-746, and `PaaS.get_actions`, lines 449-451) -/

/-- Shape of one entry of a `GetCurrentActions` response, with the fields the
backup poll reads: `text.env`, `parameters.appUniqueName`,
`parameters.action` (each possibly missing, as `dict.get` defaults). -/
structure JAction where
  textEnv : Option String
  appUniqueName : Option String
  action : Option String
  deriving Repr, DecidableEq

/-- Embedding of `PaaS.get_actions`: current actions filtered to this
environment. -/
def get_actions (envName : String) (actions : List JAction) : List JAction :=
  actions.filter (fun a => a.textEnv == some envName)

/-- Embedding of `PaaSNetBox.is_db_backup_running`: some current action of the
environment targets this addon with the `backup` action. -/
def is_db_backup_running (envName appUniqueName : String)
    (actions : List JAction) : Bool :=
  (get_actions envName actions).any
    (fun a => a.appUniqueName == some appUniqueName && a.action == some "backup")

/-- Observable step of the `db_backup` polling loop. -/
inductive BackupEvent where
  | poll (k : Nat)
  | sleep (seconds : Nat)
  | executeBackup
  deriving Repr, DecidableEq

/-- Embedding of the `while` loop of `PaaSNetBox.db_backup`.  `schedule k` is
the `GetCurrentActions` response observed by the k-th poll; `fuel` bounds the
number of iterations (the Python loop may spin forever, which is the `none`
case).  On success it returns the event trace and the index of the poll after
which the backup action was executed. -/
def db_backup_loop (envName appUniqueName : String)
    (schedule : Nat → List JAction) :
    Nat → Nat → Option (List BackupEvent × Nat)
  | 0, _ => none
  | fuel + 1, k =>
      if is_db_backup_running envName appUniqueName (schedule k) then
        match db_backup_loop envName appUniqueName schedule fuel (k + 1) with
        | some (tr, j) =>
            some (BackupEvent.poll k :: BackupEvent.sleep 30 :: tr, j)
        | none => none
      else
        some ([BackupEvent.poll k, BackupEvent.executeBackup], k)

/-- Embedding of `PaaSNetBox.db_backup`: run the polling loop from the first
poll. -/
def db_backup (envName appUniqueName : String) (schedule : Nat → List JAction)
    (fuel : Nat) : Option (List BackupEvent × Nat) :=
  db_backup_loop envName appUniqueName schedule fuel 0

/-- Concrete poll schedule used to witness C4: a backup for `dbb` is running at
the first poll and finished from the second poll on. -/
def pollSchedule : Nat → List JAction := fun n =>
  if n = 0 then [⟨some "env", some "dbb", some "backup"⟩] else []

/-! ### Remote lookup caching (`PaaS._get_env_info` / `_get_env_var` /
`clear_cache`, paas.py lines 153-177; identically `IaaS`, iaas.py lines
85-109).  `functools.lru_cache` attaches one cache to each decorated method
object, keyed by the call arguments including `self`: `_get_env_info` holds at
most one entry (`maxsize=1`), `_get_env_var` at most ten (`maxsize=10`},
evicting the least recently used key.  Instances are numbered; the cached
remote responses are opaque vendor blobs, so the model tracks the cached keys
and the remote calls performed. -/

/-- Call into the cached methods: `_get_env_info` or `_get_env_var` on a given
instance, or `clear_cache`. -/
inductive CacheOp where
  | getEnvInfo (inst : Nat)
  | getEnvVar (inst : Nat) (group : String)
  | clearCache
  deriving Repr, DecidableEq

/-- Remote call performed on a cache miss: `GetEnvInfo` or
`GetContainerEnvVarsByGroup` for the given instance (and node group). -/
inductive RemoteCall where
  | getEnvInfoCall (inst : Nat)
  | getEnvVarCall (inst : Nat) (group : String)
  deriving Repr, DecidableEq

/-- Joint state of the two `lru_cache` objects: the key of the single
`_get_env_info` slot, and the `_get_env_var` keys in most-recently-used-first
order. -/
structure CacheState where
  envInfo : Option Nat
  envVars : List (Nat × String)
  deriving Repr, DecidableEq

/-- Both caches empty. -/
def initState : CacheState := ⟨none, []⟩

/-- One call against the caches: a hit returns the cached entry (refreshing
its recency for the LRU cache), a miss performs the remote call, stores the
key and evicts beyond the maxsize; `clear_cache` invokes `cache_clear()` on
both caches, emptying them for every instance. -/
def step : CacheState → CacheOp → CacheState × List RemoteCall
  | s, CacheOp.getEnvInfo i =>
      if s.envInfo == some i then (s, [])
      else ({ s with envInfo := some i }, [RemoteCall.getEnvInfoCall i])
  | s, CacheOp.getEnvVar i g =>
      if s.envVars.contains (i, g) then
        ({ s with envVars := (i, g) :: s.envVars.erase (i, g) }, [])
      else
        ({ s with envVars := ((i, g) :: s.envVars).take 10 },
         [RemoteCall.getEnvVarCall i g])
  | _, CacheOp.clearCache => (initState, [])

/-- Run a call sequence, collecting the remote calls performed in order. -/
def runOps : CacheState → List CacheOp → CacheState × List RemoteCall
  | s, [] => (s, [])
  | s, op :: ops =>
      let r := step s op
      let rest := runOps r.1 ops
      (rest.1, r.2 ++ rest.2)

/-- Number of remote `GetEnvInfo` calls for an instance. -/
def countEnvInfoCalls (i : Nat) (calls : List RemoteCall) : Nat :=
  calls.count (RemoteCall.getEnvInfoCall i)

/-- Number of remote `GetContainerEnvVarsByGroup` calls for an instance and
node group. -/
def countEnvVarCalls (i : Nat) (g : String) (calls : List RemoteCall) : Nat :=
  calls.count (RemoteCall.getEnvVarCall i g)

/-- Test that a call targets the given instance (so in particular is not a
`clear_cache`). -/
def opOfInst (i : Nat) : CacheOp → Bool
  | CacheOp.getEnvInfo j => j == i
  | CacheOp.getEnvVar j _ => j == i
  | CacheOp.clearCache => false

/-- Node groups requested by `_get_env_var` calls of a call sequence. -/
def opGroups (ops : List CacheOp) : List String :=
  ops.filterMap (fun op =>
    match op with
    | CacheOp.getEnvVar _ g => some g
    | _ => none)

/-! ### Version upgrades (`PaaSNetBox._get_docker_tags` / `get_upgrades` /
`is_upgrade_available`, paas.py lines 676-723).  The `semver` library's
`Version.parse` and ordering are external calls, modelled from the semantic
versioning rules the library implements; parsing works on character lists. -/

/-- Semantic version as the `semver` library represents it: numeric core,
dot-separated prerelease identifiers (empty list meaning a release), and
build metadata (ignored by comparisons). -/
structure SemVer where
  major : Nat
  minor : Nat
  patch : Nat
  prerelease : List String
  build : Option String
  deriving Repr, DecidableEq

/-- Split a character list at every occurrence of the separator. -/
def splitOnChar (c : Char) : List Char → List (List Char)
  | [] => [[]]
  | x :: xs =>
      let rest := splitOnChar c xs
      if x = c then [] :: rest
      else
        match rest with
        | [] => [[x]]
        | r :: rs => (x :: r) :: rs

/-- Split a character list at the first occurrence of the separator, returning
the part before it and, when found, the part after it. -/
def splitFirst (c : Char) : List Char → List Char × Option (List Char)
  | [] => ([], none)
  | x :: xs =>
      if x = c then ([], some xs)
      else
        let r := splitFirst c xs
        (x :: r.1, r.2)

/-- Parse a numeric semver identifier: digits only, no leading zero. -/
def parseNatStrict (l : List Char) : Option Nat :=
  if l.isEmpty then none
  else if l.all (fun c => c.isDigit) then
    if l.length > 1 && l.head? == some '0' then none
    else some (l.foldl (fun n c => n * 10 + (c.toNat - Char.toNat '0')) 0)
  else none

/-- Characters allowed in prerelease and build identifiers. -/
def isIdentChar (c : Char) : Bool := c.isAlphanum || c = '-'

/-- Validity of one prerelease identifier: nonempty, alphanumeric or hyphen,
and no leading zero when fully numeric. -/
def validPreId (l : List Char) : Bool :=
  !l.isEmpty && l.all isIdentChar &&
    (if l.all (fun c => c.isDigit) then !(l.length > 1 && l.head? == some '0')
     else true)

/-- Modelled from the semantic-versioning rules implemented by the external
`semver.Version.parse`: `MAJOR.MINOR.PATCH`, optionally `-prerelease` (after
the first hyphen) and `+build` (after the first plus); malformed input is the
library's `ValueError`, embedded as `none`. -/
def parseVersion (s : String) : Option SemVer :=
  let p1 := splitFirst '+' s.data
  let p2 := splitFirst '-' p1.1
  match splitOnChar '.' p2.1 with
  | [a, b, c] =>
      match parseNatStrict a, parseNatStrict b, parseNatStrict c with
      | some ma, some mi, some pa =>
          let pre : Option (List String) :=
            match p2.2 with
            | none => some []
            | some p =>
                let ids := splitOnChar '.' p
                if ids.all validPreId then some (ids.map (fun l => String.mk l))
                else none
          let buildOk : Bool :=
            match p1.2 with
            | none => true
            | some b =>
                (splitOnChar '.' b).all (fun l => !l.isEmpty && l.all isIdentChar)
          match pre with
          | some ids =>
              if buildOk then
                some ⟨ma, mi, pa, ids, (p1.2).map (fun l => String.mk l)⟩
              else none
          | none => none
      | _, _, _ => none
  | _ => none

/-- Lexicographic comparison of character lists (ASCII comparison of
alphanumeric identifiers). -/
def lexCompare : List Char → List Char → Ordering
  | [], [] => Ordering.eq
  | [], _ :: _ => Ordering.lt
  | _ :: _, [] => Ordering.gt
  | a :: as, b :: bs =>
      match compare a b with
      | Ordering.eq => lexCompare as bs
      | o => o

/-- Comparison of two prerelease identifiers: numeric identifiers compare as
numbers and are lower than alphanumeric ones, which compare in ASCII order. -/
def identCompare (a b : List Char) : Ordering :=
  if a.all (fun c => c.isDigit) && b.all (fun c => c.isDigit) then
    compare (a.foldl (fun n c => n * 10 + (c.toNat - Char.toNat '0')) 0)
      (b.foldl (fun n c => n * 10 + (c.toNat - Char.toNat '0')) 0)
  else if a.all (fun c => c.isDigit) then Ordering.lt
  else if b.all (fun c => c.isDigit) then Ordering.gt
  else lexCompare a b

/-- Comparison of prerelease identifier lists: identifier by identifier, a
shorter list preceding any extension of it. -/
def preListCompare : List String → List String → Ordering
  | [], [] => Ordering.eq
  | [], _ :: _ => Ordering.lt
  | _ :: _, [] => Ordering.gt
  | a :: as, b :: bs =>
      match identCompare a.data b.data with
      | Ordering.eq => preListCompare as bs
      | o => o

/-- Modelled from the semantic-versioning precedence implemented by the
external `semver` ordering: numeric core first, then a release outranks any
prerelease, then prerelease identifiers; build metadata is ignored. -/
def vcompare (a b : SemVer) : Ordering :=
  match compare a.major b.major with
  | Ordering.eq =>
      match compare a.minor b.minor with
      | Ordering.eq =>
          match compare a.patch b.patch with
          | Ordering.eq =>
              match a.prerelease, b.prerelease with
              | [], [] => Ordering.eq
              | [], _ :: _ => Ordering.gt
              | _ :: _, [] => Ordering.lt
              | _, _ => preListCompare a.prerelease b.prerelease
          | o => o
      | o => o
  | o => o

/-- Strict version order `tag > current_version`. -/
def vgt (a b : SemVer) : Bool := vcompare a b == Ordering.gt

/-- Embedding of `PaaSNetBox._get_docker_tags` applied to the tag names of the
Docker Hub response: keep the names starting with `v`, strip every leading
`v` (`lstrip("v")`), parse each as a version (a `ValueError` skips the name),
and keep the non-prerelease versions. -/
def get_docker_tags (names : List String) : List SemVer :=
  (names.filter (fun n => n.data.head? == some 'v')).filterMap
    (fun n =>
      match parseVersion (String.mk (n.data.dropWhile (fun c => c = 'v'))) with
      | some ver => if ver.prerelease.isEmpty then some ver else none
      | none => none)

/-- Embedding of `PaaSNetBox.get_upgrades`: one pass over the docker tags,
appending patch-level matches when `include_patch` is set and every tag
strictly greater than the current version. -/
def get_upgrades (includePatch : Bool) (docker_tags : List SemVer)
    (current_version : SemVer) : List SemVer :=
  docker_tags.foldl
    (fun upgrades tag =>
      let upgrades :=
        if includePatch then
          if tag.major == current_version.major
              && tag.minor == current_version.minor then
            upgrades ++ [tag]
          else upgrades
        else upgrades
      if vgt tag current_version then upgrades ++ [tag] else upgrades)
    []

/-- Embedding of `PaaSNetBox.is_upgrade_available`: `bool(self.get_upgrades())`
with the default `include_patch=False`. -/
def is_upgrade_available (docker_tags : List SemVer)
    (current_version : SemVer) : Bool :=
  !(get_upgrades false docker_tags current_version).isEmpty

/-! ### Requirements parsing (`RequirementsParser`, paas.py lines 29-92).  The
`requirements` library's parsing of a single line is external; a parsed
`Requirement` carries the fields the class reads (`name`, `vcs`, `uri`, with
`None` possible for each) and its original line. -/

/-- Parsed requirement record, with the fields `RequirementsParser` reads. -/
structure Requirement where
  name : Option String
  vcs : Option String
  uri : Option String
  line : String
  deriving Repr, DecidableEq

/-- Embedding of `RequirementsParser._exists`: VCS requirements (truthy `vcs`)
are matched by VCS and URI, plain requirements by name. -/
def req_exists (req : Requirement) (reqs : List Requirement) : Bool :=
  reqs.any (fun r =>
    match req.vcs with
    | some _ => r.vcs == req.vcs && r.uri == req.uri
    | none => r.name == req.name)

/-- Replacement loop of `RequirementsParser.add`: the first entry with the same
name is updated in place; otherwise the new requirement is appended. -/
def add_req (req : Requirement) : List Requirement → List Requirement
  | [] => [req]
  | r :: rest =>
      if r.name == req.name then req :: rest else r :: add_req req rest

/-- Embedding of `RequirementsParser.add` (applied to the already-parsed
requirement): returns the boolean result (always `True`) and the updated
list. -/
def add (req : Requirement) (reqs : List Requirement) : Bool × List Requirement :=
  (true, add_req req reqs)

/-- Embedding of `RequirementsParser.remove` (applied to the already-parsed
requirement): when no entry matches per `_exists`, return `False` and keep the
list; otherwise drop every entry with the requirement's name. -/
def remove (req : Requirement) (reqs : List Requirement) :
    Bool × List Requirement :=
  if req_exists req reqs then
    (true, reqs.filter (fun r => !(r.name == req.name)))
  else
    (false, reqs)

/-- Number of entries of the list carrying the given name. -/
def countName (n : Option String) (reqs : List Requirement) : Nat :=
  reqs.countP (fun r => r.name == n)

/-! ### Persisted model validation (`NetBoxConfiguration.clean`, models.py
lines 69-96, and `NetBoxDBBackup.clean`, lines 298-319).  `clean` raises
`ValidationError` at the first failing check; the embedding returns the first
error, `none` meaning the record is accepted.  Remote lookups
(`self.paas(...)`, raising `JelasticApiError` when the environment does not
exist) and crontab parsing (`croniter`, raising `CroniterError` on a malformed
expression) are external calls, embedded as boolean oracles. -/

/-- Fields of a `NetBoxConfiguration` record that `clean` reads, together with
the ORM facts it queries: whether some instance is already persisted
(`objects.exists()`) and whether this record has a primary key.  `env_name`
comes from the `ENV_NAME` environment variable; a blank or null `license` is
`none`. -/
structure NetBoxConfigurationState where
  key : String
  env_name_storage : String
  license : Option String
  env_name : String
  anotherExists : Bool
  hasPk : Bool
  deriving Repr, DecidableEq

/-- Reason a `NetBoxConfiguration` record is rejected. -/
inductive ConfigCleanError where
  | notUnique
  | envNameHasDot
  | envLookupFailed (envName : String)
  | invalidLicense
  deriving Repr, DecidableEq

/-- License prefix check of `NetBoxConfiguration.clean`
(`license.startswith("ghp_") or license.startswith("github_pat_")`, expressed
on the character lists). -/
def licenseInvalid : Option String → Bool
  | some l => !(List.isPrefixOf "ghp_".data l.data
      || List.isPrefixOf "github_pat_".data l.data)
  | none => false

/-- Embedding of `NetBoxConfiguration.clean`: only one instance may exist, the
environment name must not contain dots, the remote environment (and, when set,
the storage environment) must exist, and the license must carry a GitHub token
prefix. -/
def NetBoxConfiguration_clean (s : NetBoxConfigurationState)
    (envExists : String → Bool) : Option ConfigCleanError :=
  if s.anotherExists && !s.hasPk then some ConfigCleanError.notUnique
  else if s.env_name.data.contains '.' then some ConfigCleanError.envNameHasDot
  else if s.hasPk && !(envExists s.env_name) then
    some (ConfigCleanError.envLookupFailed s.env_name)
  else if !(s.env_name_storage == "") && !(envExists s.env_name_storage) then
    some (ConfigCleanError.envLookupFailed s.env_name_storage)
  else if licenseInvalid s.license then some ConfigCleanError.invalidLicense
  else none

/-- Fields of a `NetBoxDBBackup` record that `clean` reads: the linked
configuration's storage environment name, the crontab expression, the
retention count, and the ORM uniqueness facts. -/
structure NetBoxDBBackupState where
  envNameStorage : String
  crontab : String
  keepBackups : Nat
  anotherExists : Bool
  hasPk : Bool
  deriving Repr, DecidableEq

/-- Reason a `NetBoxDBBackup` record is rejected. -/
inductive DBBackupCleanError where
  | notUnique
  | noStorageEnv
  | tooManyBackups
  | tooFewBackups
  | invalidCrontab
  deriving Repr, DecidableEq

/-- Embedding of `NetBoxDBBackup.clean`: only one instance may exist, the
linked configuration needs a storage environment, the retention count must lie
in 1..30, and the crontab expression must parse. -/
def NetBoxDBBackup_clean (s : NetBoxDBBackupState) (cronValid : String → Bool) :
    Option DBBackupCleanError :=
  if s.anotherExists && !s.hasPk then some DBBackupCleanError.notUnique
  else if s.envNameStorage == "" then some DBBackupCleanError.noStorageEnv
  else if s.keepBackups > 30 then some DBBackupCleanError.tooManyBackups
  else if s.keepBackups < 1 then some DBBackupCleanError.tooFewBackups
  else if !(cronValid s.crontab) then some DBBackupCleanError.invalidCrontab
  else none

/-- Rejection reasons of the two models that are uniqueness violations or
string-format violations of scalar fields, as the claim allows: the
single-instance checks, the dot check on the environment name, the license
prefix check, and the crontab format check.  The remote-existence failure, the
missing-storage requirement and the retention-count range are not among
them. -/
def ConfigCleanError.isUniquenessOrFormat : ConfigCleanError → Bool
  | ConfigCleanError.notUnique => true
  | ConfigCleanError.envNameHasDot => true
  | ConfigCleanError.invalidLicense => true
  | ConfigCleanError.envLookupFailed _ => false

/-- Classification of `NetBoxDBBackup` rejection reasons as uniqueness or
string-format checks. -/
def DBBackupCleanError.isUniquenessOrFormat : DBBackupCleanError → Bool
  | DBBackupCleanError.notUnique => true
  | DBBackupCleanError.invalidCrontab => true
  | DBBackupCleanError.noStorageEnv => false
  | DBBackupCleanError.tooManyBackups => false
  | DBBackupCleanError.tooFewBackups => false

/-! ### Helper lemmas -/

/-- Taking the head of a filtered list is finding the first element satisfying
the predicate. -/
theorem head?_filter_eq_find? {α : Type} (p : α → Bool) (l : List α) :
    (l.filter p).head? = l.find? p := by
  induction l with
  | nil => rfl
  | cons a l ih =>
      by_cases h : p a
      · simp [List.filter_cons, List.find?, h]
      · simp only [List.filter_cons, List.find?, h]
        simp only [Bool.false_eq_true, if_false]
        exact ih

/-- Accumulating one result per element with `results.append` is mapping over
the list. -/
theorem foldl_append_singleton_eq_map {α β : Type} (f : α → β) (l : List α) :
    l.foldl (fun rs g => rs ++ [f g]) [] = l.map f := by
  suffices h : ∀ acc, l.foldl (fun rs g => rs ++ [f g]) acc = acc ++ l.map f by
    simpa using h []
  induction l with
  | nil => intro acc; simp
  | cons a l ih =>
      intro acc
      simp only [List.foldl_cons, List.map_cons, ih]
      simp

/-- Accumulating the elements passing a test with `results.append` is
filtering the list. -/
theorem foldl_append_ite_eq_filter {α : Type} (p : α → Bool) (l : List α) :
    l.foldl (fun acc x => if p x then acc ++ [x] else acc) [] = l.filter p := by
  suffices h : ∀ acc, l.foldl (fun acc x => if p x then acc ++ [x] else acc) acc
      = acc ++ l.filter p by
    simpa using h []
  induction l with
  | nil => intro acc; simp
  | cons a l ih =>
      intro acc
      by_cases hp : p a <;> simp [List.filter_cons, hp, ih]

/-- Unfolding of `runOps` on a first call. -/
theorem runOps_cons (s : CacheState) (op : CacheOp) (ops : List CacheOp) :
    runOps s (op :: ops)
      = ((runOps (step s op).1 ops).1,
         (step s op).2 ++ (runOps (step s op).1 ops).2) := rfl

/-- Length of a deduplicated sublist is bounded by that of the deduplicated
superlist. -/
theorem dedup_length_le_of_subset {α : Type} [DecidableEq α] {l1 l2 : List α}
    (h : l1 ⊆ l2) : l1.dedup.length ≤ l2.dedup.length :=
  List.Subperm.length_le
    ((List.nodup_dedup l1).subperm
      (fun _ hx => List.mem_dedup.mpr (h (List.mem_dedup.mp hx))))

/-- Length of a duplicate-free list contained in another list is bounded by
the latter's number of distinct elements. -/
theorem nodup_length_le_dedup_of_subset {α : Type} [DecidableEq α]
    {l1 l2 : List α} (h1 : l1.Nodup) (h : l1 ⊆ l2) :
    l1.length ≤ l2.dedup.length :=
  List.Subperm.length_le
    (h1.subperm (fun _ hx => List.mem_dedup.mpr (h hx)))

/-- Containment of a pair with fixed first component in a mapped list. -/
theorem contains_map_pair (i : Nat) (g : String) (gs : List String) :
    ((gs.map (fun x => (i, x))).contains (i, g)) = gs.contains g := by
  have h1 : ((gs.map (fun x => (i, x))).contains (i, g)) = true
      ↔ (i, g) ∈ gs.map (fun x => (i, x)) := List.elem_iff
  have h2 : (gs.contains g) = true ↔ g ∈ gs := List.elem_iff
  have h3 : (i, g) ∈ gs.map (fun x => (i, x)) ↔ g ∈ gs := by
    constructor
    · intro hm
      obtain ⟨x, hx, hxe⟩ := List.mem_map.mp hm
      cases hxe
      exact hx
    · intro hm
      exact List.mem_map.mpr ⟨g, hm, rfl⟩
  cases hb : (gs.map (fun x => (i, x))).contains (i, g) with
  | true =>
      exact ((h2.mpr (h3.mp (h1.mp hb))).symm)
  | false =>
      cases hg : gs.contains g with
      | true =>
          exact absurd (h1.mpr (h3.mpr (h2.mp hg))) (by rw [hb]; decide)
      | false => rfl

/-- Mapping with a fixed first component is injective. -/
theorem pairInj (i : Nat) : Function.Injective (fun x : String => (i, x)) :=
  fun a b h => by cases h; rfl

/-- Once the environment-info slot caches an instance, a call sequence of that
instance performs no further remote `GetEnvInfo` call. -/
theorem envInfo_calls_zero (i : Nat) :
    ∀ (ops : List CacheOp) (s : CacheState), ops.all (opOfInst i) = true →
      s.envInfo = some i →
      countEnvInfoCalls i (runOps s ops).2 = 0 := by
  intro ops
  induction ops with
  | nil =>
      intro s _ _
      simp [runOps, countEnvInfoCalls]
  | cons op ops ih =>
      intro s hall hinfo
      rw [List.all_cons, Bool.and_eq_true] at hall
      obtain ⟨hop, hrest⟩ := hall
      cases op with
      | clearCache => simp [opOfInst] at hop
      | getEnvInfo j =>
          have hj : j = i := by simpa [opOfInst] using hop
          subst hj
          have hbeq : (s.envInfo == some j) = true := by
            rw [hinfo]
            simp
          rw [runOps_cons]
          simp only [step, hbeq, if_true]
          rw [countEnvInfoCalls, List.count_append]
          have h0 : List.count (RemoteCall.getEnvInfoCall j) ([] : List RemoteCall) = 0 := rfl
          rw [h0, Nat.zero_add]
          exact ih s hrest hinfo
      | getEnvVar j g =>
          rw [runOps_cons]
          by_cases hc : (s.envVars.contains (j, g)) = true
          · simp only [step, hc, if_true]
            rw [countEnvInfoCalls, List.count_append]
            have h0 : List.count (RemoteCall.getEnvInfoCall i) ([] : List RemoteCall) = 0 := rfl
            rw [h0, Nat.zero_add]
            exact ih _ hrest hinfo
          · simp only [step, hc, Bool.false_eq_true, if_false]
            rw [countEnvInfoCalls, List.count_append]
            have h0 : List.count (RemoteCall.getEnvInfoCall i)
                [RemoteCall.getEnvVarCall j g] = 0 := by
              rw [List.count_cons]
              simp
            rw [h0, Nat.zero_add]
            exact ih _ hrest hinfo

/-- From any cache state, a call sequence of a single instance performs at
most one remote `GetEnvInfo` call. -/
theorem envInfo_calls_le_one (i : Nat) :
    ∀ (ops : List CacheOp) (s : CacheState), ops.all (opOfInst i) = true →
      countEnvInfoCalls i (runOps s ops).2 ≤ 1 := by
  intro ops
  induction ops with
  | nil =>
      intro s _
      simp [runOps, countEnvInfoCalls]
  | cons op ops ih =>
      intro s hall
      rw [List.all_cons, Bool.and_eq_true] at hall
      obtain ⟨hop, hrest⟩ := hall
      cases op with
      | clearCache => simp [opOfInst] at hop
      | getEnvInfo j =>
          have hj : j = i := by simpa [opOfInst] using hop
          subst hj
          rw [runOps_cons]
          by_cases hbeq : (s.envInfo == some j) = true
          · simp only [step, hbeq, if_true]
            rw [countEnvInfoCalls, List.count_append]
            have h0 : List.count (RemoteCall.getEnvInfoCall j) ([] : List RemoteCall) = 0 := rfl
            rw [h0, Nat.zero_add]
            exact ih s hrest
          · simp only [step, hbeq, Bool.false_eq_true, if_false]
            rw [countEnvInfoCalls, List.count_append]
            have h1 : List.count (RemoteCall.getEnvInfoCall j)
                [RemoteCall.getEnvInfoCall j] = 1 := by
              rw [List.count_cons]
              simp
            rw [h1]
            have h2 := envInfo_calls_zero j ops { s with envInfo := some j } hrest rfl
            rw [countEnvInfoCalls] at h2
            omega
      | getEnvVar j g =>
          rw [runOps_cons]
          by_cases hc : (s.envVars.contains (j, g)) = true
          · simp only [step, hc, if_true]
            rw [countEnvInfoCalls, List.count_append]
            have h0 : List.count (RemoteCall.getEnvInfoCall i) ([] : List RemoteCall) = 0 := rfl
            rw [h0, Nat.zero_add]
            exact ih _ hrest
          · simp only [step, hc, Bool.false_eq_true, if_false]
            rw [countEnvInfoCalls, List.count_append]
            have h0 : List.count (RemoteCall.getEnvInfoCall i)
                [RemoteCall.getEnvVarCall j g] = 0 := by
              rw [List.count_cons]
              simp
            rw [h0, Nat.zero_add]
            exact ih _ hrest

/-- Permuted lists agree on containment. -/
theorem contains_eq_of_perm {α : Type} [BEq α] [LawfulBEq α] {l l' : List α}
    (h : l.Perm l') (a : α) : l.contains a = l'.contains a := by
  cases hb : l'.contains a with
  | true => exact List.elem_iff.mpr (h.mem_iff.mpr (List.elem_iff.mp hb))
  | false =>
      cases hb2 : l.contains a with
      | false => rfl
      | true =>
          have hb' : List.elem a l' = false := hb
          exact absurd (List.elem_iff.mpr (h.mem_iff.mp (List.elem_iff.mp hb2)))
            (by rw [hb']; decide)

/-- Containment in a list extended by a different element. -/
theorem contains_cons_of_ne {α : Type} [BEq α] [LawfulBEq α] (x g : α)
    (l : List α) (hne : g ≠ x) : ((x :: l).contains g) = l.contains g := by
  cases hb : l.contains g with
  | true => exact List.elem_iff.mpr (List.mem_cons_of_mem x (List.elem_iff.mp hb))
  | false =>
      cases hb2 : (x :: l).contains g with
      | false => rfl
      | true =>
          rcases List.mem_cons.mp (List.elem_iff.mp hb2) with h | h
          · exact absurd h hne
          · have hb' : List.elem g l = false := hb
            exact absurd (List.elem_iff.mpr h) (by rw [hb']; decide)

/-- Erasing a pair with fixed first component commutes with mapping. -/
theorem map_pair_erase (i : Nat) (h0 : String) (gs : List String) :
    (gs.map (fun x => (i, x))).erase (i, h0)
      = (gs.erase h0).map (fun x => (i, x)) := by
  induction gs with
  | nil => rfl
  | cons a gs ih =>
      rw [List.map_cons, List.erase_cons, List.erase_cons]
      by_cases hh : a = h0
      · subst hh
        simp
      · have h1 : (((i, a) : Nat × String) == (i, h0)) = false := by
          rw [beq_eq_false_iff_ne]
          intro hcontra
          cases hcontra
          exact hh rfl
        have h2 : (a == h0) = false := by
          rw [beq_eq_false_iff_ne]
          exact hh
        rw [h1, h2]
        simp [ih]

/-- Core LRU bound: running a call sequence of one instance from a cache whose
`_get_env_var` keys are that instance's pairs over a duplicate-free group list
`gs`, with at most ten distinct groups overall, performs at most one remote
env-var call for a group not yet cached and none for a cached one. -/
theorem envVar_calls_bound (i : Nat) (g : String) :
    ∀ (ops : List CacheOp) (gs : List String) (e : Option Nat),
      ops.all (opOfInst i) = true → gs.Nodup →
      (gs ++ opGroups ops).dedup.length ≤ 10 →
      countEnvVarCalls i g
          (runOps ⟨e, gs.map (fun x => (i, x))⟩ ops).2
        ≤ if gs.contains g then 0 else 1 := by
  intro ops
  induction ops with
  | nil =>
      intro gs e _ _ _
      have h0 : countEnvVarCalls i g
          (runOps ⟨e, gs.map (fun x => (i, x))⟩ []).2 = 0 := rfl
      rw [h0]
      exact Nat.zero_le _
  | cons op ops ih =>
      intro gs e hall hnd hlen
      rw [List.all_cons, Bool.and_eq_true] at hall
      obtain ⟨hop, hrest⟩ := hall
      cases op with
      | clearCache => simp [opOfInst] at hop
      | getEnvInfo j =>
          have hgroups : opGroups (CacheOp.getEnvInfo j :: ops) = opGroups ops := rfl
          rw [hgroups] at hlen
          rw [runOps_cons]
          by_cases hb : ((⟨e, gs.map (fun x => (i, x))⟩ : CacheState).envInfo
              == some j) = true
          · simp only [step, hb, if_true]
            rw [countEnvVarCalls, List.count_append]
            have h0 : List.count (RemoteCall.getEnvVarCall i g)
                ([] : List RemoteCall) = 0 := rfl
            rw [h0, Nat.zero_add]
            exact ih gs e hrest hnd hlen
          · simp only [step, hb, Bool.false_eq_true, if_false]
            rw [countEnvVarCalls, List.count_append]
            have h0 : List.count (RemoteCall.getEnvVarCall i g)
                [RemoteCall.getEnvInfoCall j] = 0 := by
              rw [List.count_cons]
              simp
            rw [h0, Nat.zero_add]
            exact ih gs (some j) hrest hnd hlen
      | getEnvVar j h' =>
          have hj : j = i := by simpa [opOfInst] using hop
          rw [hj] at hlen ⊢
          have hgroups : opGroups (CacheOp.getEnvVar i h' :: ops)
              = h' :: opGroups ops := rfl
          rw [hgroups] at hlen
          rw [runOps_cons]
          by_cases hc : ((gs.map (fun x => (i, x))).contains (i, h')) = true
          · have hmem : h' ∈ gs := by
              rw [contains_map_pair] at hc
              exact List.elem_iff.mp hc
            have hperm : gs.Perm (h' :: gs.erase h') := List.perm_cons_erase hmem
            have hmap : ((i, h') :: (gs.map (fun x => (i, x))).erase (i, h'))
                = ((h' :: gs.erase h').map (fun x => (i, x))) := by
              rw [List.map_cons, map_pair_erase]
            simp only [step, hc, if_true]
            rw [countEnvVarCalls, List.count_append]
            have h0 : List.count (RemoteCall.getEnvVarCall i g)
                ([] : List RemoteCall) = 0 := rfl
            rw [h0, Nat.zero_add, hmap]
            have hnd2 : (h' :: gs.erase h').Nodup := hperm.nodup hnd
            have hsub : (h' :: gs.erase h') ++ opGroups ops
                ⊆ gs ++ (h' :: opGroups ops) := by
              intro x hx
              rcases List.mem_append.mp hx with hx | hx
              · exact List.mem_append.mpr (Or.inl (hperm.mem_iff.mpr hx))
              · exact List.mem_append.mpr (Or.inr (List.mem_cons_of_mem _ hx))
            have hlen2 : ((h' :: gs.erase h') ++ opGroups ops).dedup.length ≤ 10 :=
              le_trans (dedup_length_le_of_subset hsub) hlen
            have hbnd := ih (h' :: gs.erase h') e hrest hnd2 hlen2
            rw [contains_eq_of_perm hperm g] at *
            exact hbnd
          · have hnmem : h' ∉ gs := by
              rw [contains_map_pair] at hc
              intro hm
              exact hc (List.elem_iff.mpr hm)
            have hnd2 : (h' :: gs).Nodup := by
              rw [List.nodup_cons]
              exact ⟨hnmem, hnd⟩
            have hsub2 : (h' :: gs) ⊆ gs ++ (h' :: opGroups ops) := by
              intro x hx
              rcases List.mem_cons.mp hx with rfl | hx
              · exact List.mem_append.mpr (Or.inr (List.mem_cons_self _ _))
              · exact List.mem_append.mpr (Or.inl hx)
            have hlen2 : (h' :: gs).length ≤ 10 :=
              le_trans (nodup_length_le_dedup_of_subset hnd2 hsub2) hlen
            have htake : (((i, h') :: gs.map (fun x => (i, x))).take 10)
                = ((h' :: gs).map (fun x => (i, x))) := by
              rw [List.take_of_length_le]
              · rfl
              · simpa using hlen2
            simp only [step, hc, Bool.false_eq_true, if_false]
            rw [countEnvVarCalls, List.count_append, htake]
            have hsub3 : (h' :: gs) ++ opGroups ops ⊆ gs ++ (h' :: opGroups ops) := by
              intro x hx
              rcases List.mem_append.mp hx with hx | hx
              · exact hsub2 hx
              · exact List.mem_append.mpr (Or.inr (List.mem_cons_of_mem _ hx))
            have hlen3 : ((h' :: gs) ++ opGroups ops).dedup.length ≤ 10 :=
              le_trans (dedup_length_le_of_subset hsub3) hlen
            have hbnd := ih (h' :: gs) e hrest hnd2 hlen3
            by_cases hg : h' = g
            · subst hg
              have hcnt : List.count (RemoteCall.getEnvVarCall i h')
                  [RemoteCall.getEnvVarCall i h'] = 1 := by
                rw [List.count_cons]
                simp
              have hgsf : gs.contains h' = false := by
                cases hgg : gs.contains h' with
                | false => rfl
                | true => exact absurd (List.elem_iff.mp hgg) hnmem
              have hct : ((h' :: gs).contains h') = true :=
                List.elem_iff.mpr (List.mem_cons_self _ _)
              rw [hct] at hbnd
              simp only [if_true, Nat.le_zero] at hbnd
              rw [countEnvVarCalls] at hbnd
              rw [hgsf, hcnt]
              simp only [Bool.false_eq_true, if_false]
              omega
            · have hcnt : List.count (RemoteCall.getEnvVarCall i g)
                  [RemoteCall.getEnvVarCall i h'] = 0 := by
                rw [List.count_cons]
                have hb2 : ((RemoteCall.getEnvVarCall i h')
                    == (RemoteCall.getEnvVarCall i g)) = false := by
                  rw [beq_eq_false_iff_ne]
                  intro hcontra
                  cases hcontra
                  exact hg rfl
                rw [hb2]
                simp
              have hceq : ((h' :: gs).contains g) = gs.contains g :=
                contains_cons_of_ne h' g gs (fun hh => hg hh.symm)
              rw [hceq] at hbnd
              rw [hcnt, Nat.zero_add]
              exact hbnd

/-- Characterisation of the polling loop of `db_backup` from an arbitrary start
index: when it returns, the final poll saw no running backup, every earlier
poll saw one, and the trace is poll/sleep pairs followed by the final poll and
the backup execution. -/
theorem db_backup_loop_spec (envName appUniqueName : String)
    (schedule : Nat → List JAction) :
    ∀ (fuel i : Nat) (tr : List BackupEvent) (k : Nat),
      db_backup_loop envName appUniqueName schedule fuel i = some (tr, k) →
      i ≤ k
      ∧ is_db_backup_running envName appUniqueName (schedule k) = false
      ∧ (∀ j, i ≤ j → j < k →
          is_db_backup_running envName appUniqueName (schedule j) = true)
      ∧ tr = (List.range' i (k - i)).flatMap
            (fun j => [BackupEvent.poll j, BackupEvent.sleep 30])
          ++ [BackupEvent.poll k, BackupEvent.executeBackup] := by
  intro fuel
  induction fuel with
  | zero =>
      intro i tr k h
      simp [db_backup_loop] at h
  | succ fuel ih =>
      intro i tr k h
      by_cases hr : is_db_backup_running envName appUniqueName (schedule i) = true
      · rw [db_backup_loop, if_pos hr] at h
        cases hrec : db_backup_loop envName appUniqueName schedule fuel (i + 1) with
        | none => rw [hrec] at h; exact absurd h (by simp)
        | some p =>
            obtain ⟨tr', k'⟩ := p
            rw [hrec] at h
            simp only [Option.some.injEq, Prod.mk.injEq] at h
            obtain ⟨htr, hk⟩ := h
            obtain ⟨hik, hstop, hrun, htr'⟩ := ih (i + 1) tr' k' hrec
            rw [← htr, ← hk]
            refine ⟨Nat.le_of_succ_le hik, hstop, ?_, ?_⟩
            · intro j hij hjk
              rcases Nat.eq_or_lt_of_le hij with heq | hlt
              · exact heq ▸ hr
              · exact hrun j hlt hjk
            · rw [htr']
              have hki : k' - i = (k' - (i + 1)) + 1 := by omega
              rw [hki, List.range'_succ]
              simp
      · rw [db_backup_loop, if_neg hr] at h
        simp only [Option.some.injEq, Prod.mk.injEq] at h
        obtain ⟨htr, hk⟩ := h
        rw [← htr, ← hk]
        rw [Bool.not_eq_true] at hr
        refine ⟨Nat.le_refl i, hr, ?_, ?_⟩
        · intro j hij hji
          omega
        · simp

/-- When no entry carries the requirement's name, `add` appends it at the
end. -/
theorem add_req_append (req : Requirement) (reqs : List Requirement)
    (h : ∀ r ∈ reqs, r.name ≠ req.name) :
    add_req req reqs = reqs ++ [req] := by
  induction reqs with
  | nil => rfl
  | cons r rest ih =>
      have hr : (r.name == req.name) = false := by
        rw [beq_eq_false_iff_ne]
        exact h r (List.mem_cons_self r rest)
      simp only [add_req, hr, Bool.false_eq_true, if_false, List.cons_append,
        List.cons.injEq, true_and]
      exact ih (fun x hx => h x (List.mem_cons_of_mem r hx))

/-- `add` replaces the first entry with the requirement's name in place. -/
theorem add_req_replace_first (req r : Requirement) (l₁ l₂ : List Requirement)
    (hr : r.name = req.name) (hl : ∀ x ∈ l₁, x.name ≠ req.name) :
    add_req req (l₁ ++ r :: l₂) = l₁ ++ req :: l₂ := by
  induction l₁ with
  | nil =>
      have : (r.name == req.name) = true := by simp [hr]
      simp [add_req, this]
  | cons x l₁ ih =>
      have hx : (x.name == req.name) = false := by
        rw [beq_eq_false_iff_ne]
        exact hl x (List.mem_cons_self x l₁)
      simp only [List.cons_append, add_req, hx, Bool.false_eq_true, if_false,
        List.cons.injEq, true_and]
      exact ih (fun y hy => hl y (List.mem_cons_of_mem x hy))

/-- When at most one entry carried the requirement's name, exactly one does
after `add`. -/
theorem countName_add_req (req : Requirement) (reqs : List Requirement)
    (h : countName req.name reqs ≤ 1) :
    countName req.name (add_req req reqs) = 1 := by
  induction reqs with
  | nil => simp [add_req, countName, List.countP_cons]
  | cons r rest ih =>
      by_cases hr : r.name = req.name
      · have hb : (r.name == req.name) = true := by simp [hr]
        have hrest : countName req.name rest = 0 := by
          simp only [countName, List.countP_cons, hr] at h ⊢
          simp only [beq_self_eq_true, if_true] at h
          omega
        simp [add_req, hb, countName, List.countP_cons, hrest]
        intro a ha
        have h0 := List.countP_eq_zero.mp hrest a ha
        simpa using h0
      · have hb : (r.name == req.name) = false := by
          rw [beq_eq_false_iff_ne]; exact hr
        have hrec : countName req.name rest ≤ 1 := by
          simp only [countName, List.countP_cons, hb] at h ⊢
          omega
        simp only [add_req, hb, Bool.false_eq_true, if_false]
        simp only [countName, List.countP_cons, hb, if_false]
        simpa [countName] using ih hrec

/-! ### Dictionary lemmas -/

/-- Setting a key makes lookup of that key return the new value. -/
theorem lookup_dset_self {V : Type} (a : String) (v : V) (m : PluginMap V) :
    List.lookup a (dset a v m) = some v := by
  induction m with
  | nil => simp [dset, List.lookup]
  | cons p rest ih =>
      by_cases h : p.1 = a
      · simp [dset, h, List.lookup]
      · have hb : (p.1 == a) = false := by simp [h]
        have hb2 : (a == p.1) = false := by
          rw [beq_eq_false_iff_ne]
          exact fun hh => h hh.symm
        simp [dset, hb, List.lookup, hb2, ih]

/-- Setting a key leaves lookups of other keys unchanged. -/
theorem lookup_dset_ne {V : Type} {k a : String} (h : k ≠ a) (v : V)
    (m : PluginMap V) : List.lookup k (dset a v m) = List.lookup k m := by
  have hka : (k == a) = false := by rw [beq_eq_false_iff_ne]; exact h
  induction m with
  | nil => simp [dset, List.lookup, hka]
  | cons p rest ih =>
      by_cases hp : p.1 = a
      · have hk : (k == p.1) = false := by rw [beq_eq_false_iff_ne, hp]; exact h
        simp [dset, hp, List.lookup, hka, hk]
      · have hb : (p.1 == a) = false := by simp [hp]
        simp only [dset, hb, if_false, List.lookup]
        cases hkp : k == p.1 <;> simp [ih]

/-- Popping a key leaves lookups of other keys unchanged. -/
theorem lookup_dpop_ne {V : Type} {k a : String} (h : k ≠ a) (m : PluginMap V) :
    List.lookup k (dpop a m) = List.lookup k m := by
  have hka : (k == a) = false := by rw [beq_eq_false_iff_ne]; exact h
  induction m with
  | nil => rfl
  | cons p rest ih =>
      by_cases hp : p.1 = a
      · have hk : (k == p.1) = false := by rw [beq_eq_false_iff_ne, hp]; exact h
        simp [dpop, hp, List.lookup, hk, hka]
      · have hb : (p.1 == a) = false := by simp [hp]
        simp only [dpop, hb, if_false, List.lookup]
        cases hkp : k == p.1 <;> simp [ih]

/-- Popping a freshly appended key from a map that did not contain it restores
the map exactly. -/
theorem dpop_dset_of_lookup_none {V : Type} {a : String} (v : V)
    {m : PluginMap V} (h : List.lookup a m = none) :
    dpop a (dset a v m) = m := by
  induction m with
  | nil => simp [dset, dpop]
  | cons p rest ih =>
      by_cases hp : p.1 = a
      · exfalso
        have : (a == p.1) = true := by simp [hp]
        simp [List.lookup, this] at h
      · have hb : (p.1 == a) = false := by simp [hp]
        have hb2 : (a == p.1) = false := by
          rw [beq_eq_false_iff_ne]
          exact fun hh => hp hh.symm
        simp only [List.lookup, hb2] at h
        simp [dset, dpop, hb, ih h]

/-! ### Claim theorems for C6, C7, C9 -/

/-- C9: for every environment-info response and node group filter, `get_nodes`
with `is_master=True` never raises: it is total, returning the first node of
the (optionally group-filtered) node list whose `ismaster` flag is set, and the
empty dict when no such node exists; with `is_master=False` it returns the
filtered list itself. -/
theorem C9_get_nodes_safe (nodes : List Node) (g : Option String) :
    (get_nodes nodes g false = NodesResult.list (groupFilter nodes g))
    ∧ (∀ n, (groupFilter nodes g).find? (fun x => x.ismaster) = some n →
        get_nodes nodes g true = NodesResult.single n)
    ∧ ((∀ n ∈ groupFilter nodes g, n.ismaster = false) →
        get_nodes nodes g true = NodesResult.emptyDict) := by
  refine ⟨rfl, ?_, ?_⟩
  · intro n h
    simp [get_nodes, head?_filter_eq_find?, h]
  · intro h
    have hn : (groupFilter nodes g).find? (fun x => x.ismaster) = none := by
      rw [List.find?_eq_none]
      intro x hx
      simp [h x hx]
    simp [get_nodes, head?_filter_eq_find?, hn]

/-- Witness for C9 at concrete inputs: a group with a master node yields that
node; a group without one yields the empty dict. -/
theorem C9_witness :
    get_nodes [⟨1, "cp", false⟩, ⟨2, "cp", true⟩] (some "cp") true
      = NodesResult.single ⟨2, "cp", true⟩
    ∧ get_nodes [⟨1, "cp", false⟩] (some "cp") true = NodesResult.emptyDict :=
  ⟨(C9_get_nodes_safe [⟨1, "cp", false⟩, ⟨2, "cp", true⟩] (some "cp")).2.1
      ⟨2, "cp", true⟩ (by decide),
   (C9_get_nodes_safe [⟨1, "cp", false⟩] (some "cp")).2.2 (by decide)⟩

/-- C6: addon install and uninstall never re-issue the vendor lifecycle call
for an addon already in the target state: an addon counted as installed (its
`app_id` matches and `isInstalled` is set) makes `install_addon` issue a
`configure` `ExecuteAction` with the given settings instead of a vendor
`InstallAddon` call, and an addon not installed makes `uninstall_addon` skip
the vendor `Uninstall` call and return result 0 with a not-installed
message. -/
theorem C6_addon_lifecycle (envName envAppId : String) (addons : List Addon)
    (appId nodeGroup : String) (st : Option AddonSettings) :
    ((get_installed_addon addons appId).isSome ↔
        ∃ a ∈ addons, a.app_id = appId ∧ a.isInstalled = true)
    ∧ (∀ a, get_installed_addon addons appId = some a →
        install_addon envName addons appId nodeGroup st
          = MarketplaceCall.executeAction a.uniqueName "configure" st)
    ∧ (get_installed_addon addons appId = none →
        uninstall_addon envAppId addons appId nodeGroup
          = UninstallResult.localResult 0
              ("Addon " ++ appId ++ " is not installed on node group "
                ++ nodeGroup ++ ".")) := by
  refine ⟨?_, ?_, ?_⟩
  · simp [get_installed_addon, List.find?_isSome]
  · intro a h
    simp [install_addon, h]
  · intro h
    simp [uninstall_addon, h]

/-- Witness for C6 at concrete inputs: an installed `db-backup` addon is
reconfigured instead of re-installed, and uninstalling from an empty addon
list performs no vendor call. -/
theorem C6_witness :
    install_addon "env" [⟨"db-backup", true, "dbb-1"⟩] "db-backup" "sqldb" none
      = MarketplaceCall.executeAction "dbb-1" "configure" none
    ∧ uninstall_addon "appid" [] "db-backup" "sqldb"
      = UninstallResult.localResult 0
          ("Addon " ++ "db-backup" ++ " is not installed on node group "
            ++ "sqldb" ++ ".") :=
  ⟨(C6_addon_lifecycle "env" "appid" [⟨"db-backup", true, "dbb-1"⟩] "db-backup"
      "sqldb" none).2.1 ⟨"db-backup", true, "dbb-1"⟩ (by decide),
   (C6_addon_lifecycle "env" "appid" [] "db-backup" "sqldb" none).2.2 rfl⟩

/-- C7: for every enqueued job, `_run_job` terminates and saves the job exactly
once in either outcome; when the wrapped function raises, the job is terminated
with errored status and the saved data holds the call parameters and the
exception message under `error`, and when it returns, the job is terminated
normally and the saved data holds the call parameters and the return value
under `result`. -/
theorem C7_run_job_outcomes (V : Type) (params : List (String × String))
    (func : Except String V) :
    ((run_job V params func).countP (fun e => e.isTerminate) = 1)
    ∧ ((run_job V params func).countP (fun e => e.isSave) = 1)
    ∧ (∀ v, func = Except.ok v →
        run_job V params func
          = [JobEvent.start, JobEvent.terminate JobStatus.completed,
             JobEvent.setData ⟨params, some v, none⟩, JobEvent.save])
    ∧ (∀ e, func = Except.error e →
        run_job V params func
          = [JobEvent.start, JobEvent.terminate JobStatus.errored,
             JobEvent.setData ⟨params, none, some e⟩, JobEvent.save]) := by
  cases func <;>
    simp [run_job, List.countP_cons, List.countP_nil, JobEvent.isTerminate,
      JobEvent.isSave]

/-- Witness for C7 at concrete inputs: one successful run and one run whose
wrapped function raises. -/
theorem C7_witness :
    run_job Nat [("app_id", "db-backup")] (Except.ok 3)
      = [JobEvent.start, JobEvent.terminate JobStatus.completed,
         JobEvent.setData ⟨[("app_id", "db-backup")], some 3, none⟩, JobEvent.save]
    ∧ run_job Nat [] (Except.error "boom")
      = [JobEvent.start, JobEvent.terminate JobStatus.errored,
         JobEvent.setData ⟨[], none, some "boom"⟩, JobEvent.save] :=
  ⟨(C7_run_job_outcomes Nat [("app_id", "db-backup")] (Except.ok 3)).2.2.1 3 rfl,
   (C7_run_job_outcomes Nat [] (Except.error "boom")).2.2.2 "boom" rfl⟩

/-- C2 counterexample: the claim as stated fails when the app label is present
in both the enabled and the disabled map.  With plugins `{p: 1}` and disabled
plugins `{p: 2}`, disabling then enabling `p` leaves the disabled map empty,
losing its original entry `p: 2`: the disabled-plugins file contents are not
restored. -/
theorem C2_counterexample :
    List.lookup "p" ([("p", 2)] : PluginMap Nat) = some 2
    ∧ List.lookup "p" (disable_then_enable [("p", 1)] [("p", 2)] "p").2 = none := by
  constructor
  · rfl
  · rfl

/-- C2 (amended): for every plugin whose app_label is present in the
enabled-plugins map and absent from the disabled-plugins map, running
`disable_plugin` and then `enable_plugin` restores the plugins file contents
and the disabled-plugins file contents to their originals, with the plugin's
settings value preserved unchanged through the move; and whenever the
app_label is absent from the source map, the move operation leaves both maps
unchanged. -/
theorem C2_disable_enable_roundtrip {V : Type} (plugins disabled : PluginMap V)
    (a : String) (v : V) (h1 : List.lookup a plugins = some v)
    (h2 : List.lookup a disabled = none) :
    (∀ k, List.lookup k (disable_then_enable plugins disabled a).1
        = List.lookup k plugins)
    ∧ (disable_then_enable plugins disabled a).2 = disabled
    ∧ List.lookup a (disable_then_enable plugins disabled a).1 = some v
    ∧ (∀ (src dst : PluginMap V) (b : String), List.lookup b src = none →
        enable_disable_plugin src dst b = (src, dst)) := by
  have hstep1 : enable_disable_plugin plugins disabled a
      = (dpop a plugins, dset a v disabled) := by
    simp [enable_disable_plugin, h1]
  have hset : List.lookup a (dset a v disabled) = some v := lookup_dset_self a v disabled
  have hstep2 : enable_disable_plugin (dset a v disabled) (dpop a plugins) a
      = (dpop a (dset a v disabled), dset a v (dpop a plugins)) := by
    simp [enable_disable_plugin, hset]
  have hfinal : disable_then_enable plugins disabled a
      = (dset a v (dpop a plugins), dpop a (dset a v disabled)) := by
    simp [disable_then_enable, hstep1, hstep2]
  refine ⟨?_, ?_, ?_, ?_⟩
  · intro k
    rw [hfinal]
    by_cases hk : k = a
    · subst hk
      rw [lookup_dset_self, h1]
    · rw [lookup_dset_ne hk, lookup_dpop_ne hk]
  · rw [hfinal]
    exact dpop_dset_of_lookup_none v h2
  · rw [hfinal]
    exact lookup_dset_self a v (dpop a plugins)
  · intro src dst b hb
    simp [enable_disable_plugin, hb]

/-- Witness for C2 at a concrete input: plugins `{x: 5}`, no disabled plugins;
after disable then enable, the disabled map is restored and the settings value
of `x` is preserved. -/
theorem C2_witness :
    (disable_then_enable [("x", (5 : Nat))] [] "x").2 = []
    ∧ List.lookup "x" (disable_then_enable [("x", (5 : Nat))] [] "x").1 = some 5 :=
  ⟨(C2_disable_enable_roundtrip [("x", 5)] [] "x" 5 rfl rfl).2.1,
   (C2_disable_enable_roundtrip [("x", 5)] [] "x" 5 rfl rfl).2.2.1⟩

/-- C4: for every invocation of `db_backup` that runs to completion, the
`backup` action is executed only after a poll of `is_db_backup_running`
reported no running backup for that addon: every earlier poll saw a running
backup and was followed by a 30-second sleep, and the action is never issued
while the most recent poll reports a running backup. -/
theorem C4_db_backup_waits (envName appUniqueName : String)
    (schedule : Nat → List JAction) (fuel : Nat) (tr : List BackupEvent)
    (k : Nat)
    (h : db_backup envName appUniqueName schedule fuel = some (tr, k)) :
    is_db_backup_running envName appUniqueName (schedule k) = false
    ∧ (∀ j < k, is_db_backup_running envName appUniqueName (schedule j) = true)
    ∧ tr = (List.range k).flatMap
          (fun j => [BackupEvent.poll j, BackupEvent.sleep 30])
        ++ [BackupEvent.poll k, BackupEvent.executeBackup] := by
  obtain ⟨-, h2, h3, h4⟩ :=
    db_backup_loop_spec envName appUniqueName schedule fuel 0 tr k h
  refine ⟨h2, fun j hj => h3 j (Nat.zero_le j) hj, ?_⟩
  rw [h4, List.range_eq_range']
  simp

/-- Witness for C4 at a concrete schedule: a backup runs during the first poll
only; the loop sleeps once and issues the backup after the second poll, which
reports no running backup. -/
theorem C4_witness :
    is_db_backup_running "env" "dbb" (pollSchedule 1) = false
    ∧ ([BackupEvent.poll 0, BackupEvent.sleep 30, BackupEvent.poll 1,
        BackupEvent.executeBackup] : List BackupEvent)
      = (List.range 1).flatMap
          (fun j => [BackupEvent.poll j, BackupEvent.sleep 30])
        ++ [BackupEvent.poll 1, BackupEvent.executeBackup] :=
  ⟨(C4_db_backup_waits "env" "dbb" pollSchedule 3
      [BackupEvent.poll 0, BackupEvent.sleep 30, BackupEvent.poll 1,
       BackupEvent.executeBackup] 1 rfl).1,
   (C4_db_backup_waits "env" "dbb" pollSchedule 3
      [BackupEvent.poll 0, BackupEvent.sleep 30, BackupEvent.poll 1,
       BackupEvent.executeBackup] 1 rfl).2.2⟩

/-- C5: `restart_nodes` issues one restart per node group in ascending
lexicographic order of the group names, each sequential with DNS management
and the given delay; in lazy mode it instead schedules one remote restart
script per group, with the base delay for the `cp` group and ten times the
base delay for every other group (converted to milliseconds by the task
trigger), returning per-group results in the same sorted order. -/
theorem C5_restart_nodes_order (envName : String) (groups : List String)
    (d : Nat) :
    ∃ gs : List String,
      gs.Perm groups
      ∧ gs.Sorted (· ≤ ·)
      ∧ restart_nodes envName groups false d
          = gs.map (fun g => RestartResult.direct g true true d)
      ∧ restart_nodes envName groups true d
          = gs.map (fun g => RestartResult.script ("ncp-restart-" ++ g)
              ("Restart " ++ g ++ " nodes") envName g
              ((if g == NODE_GROUP_CP then d else d * 10) * 1000)) := by
  refine ⟨groups.mergeSort (fun a b => a ≤ b),
    List.mergeSort_perm groups _, ?_, ?_, ?_⟩
  · have hs := @List.sorted_mergeSort String
      (fun a b : String => decide (a ≤ b))
      (fun a b c hab hbc => by
        rw [decide_eq_true_iff] at *
        exact le_trans hab hbc)
      (fun a b => by
        rcases le_total a b with h | h <;> simp [h])
      groups
    exact hs.imp (fun h => of_decide_eq_true h)
  · rw [restart_nodes]
    simp only [Bool.false_eq_true, if_false]
    exact foldl_append_singleton_eq_map _ _
  · rw [restart_nodes]
    simp only [if_true]
    exact foldl_append_singleton_eq_map _ _

/-- C8 counterexample: the claim as stated fails on a parser state holding two
requirements with the same name (as produced by loading a requirements file
with a duplicate entry, here `foo==1` and `foo==2`): `add` of `foo==3` replaces
only the first, so afterwards two entries named `foo` remain, not exactly
one. -/
theorem C8_counterexample :
    (add ⟨some "foo", none, none, "foo==3"⟩
        [⟨some "foo", none, none, "foo==1"⟩,
         ⟨some "foo", none, none, "foo==2"⟩]).1 = true
    ∧ countName (some "foo")
        (add ⟨some "foo", none, none, "foo==3"⟩
          [⟨some "foo", none, none, "foo==1"⟩,
           ⟨some "foo", none, none, "foo==2"⟩]).2 = 2 := by
  constructor
  · rfl
  · rfl

/-- C8 (amended): `add` always returns `True`; it replaces the first entry with
the same name in place when one is present and appends the new requirement
otherwise, preserving the order and content of all other entries, and when at
most one entry with the name was present, exactly one is present afterwards.
`remove` returns `False` and leaves the list unchanged when no entry matches
per the `_exists` criterion (same name for plain requirements, same VCS and
URI for VCS requirements); otherwise it returns `True` and removes every
requirement with the parsed requirement's name, leaving all others
unchanged. -/
theorem C8_requirements_ops (req : Requirement) (reqs : List Requirement) :
    ((add req reqs).1 = true)
    ∧ ((∀ r ∈ reqs, r.name ≠ req.name) → (add req reqs).2 = reqs ++ [req])
    ∧ (∀ l₁ r l₂, reqs = l₁ ++ r :: l₂ → r.name = req.name →
        (∀ x ∈ l₁, x.name ≠ req.name) → (add req reqs).2 = l₁ ++ req :: l₂)
    ∧ (countName req.name reqs ≤ 1 → countName req.name (add req reqs).2 = 1)
    ∧ (req_exists req reqs = false → remove req reqs = (false, reqs))
    ∧ (req_exists req reqs = true →
        (remove req reqs).1 = true
        ∧ (remove req reqs).2 = reqs.filter (fun r => !(r.name == req.name))
        ∧ countName req.name (remove req reqs).2 = 0) := by
  refine ⟨rfl, ?_, ?_, ?_, ?_, ?_⟩
  · intro h
    exact add_req_append req reqs h
  · intro l₁ r l₂ hsplit hr hl
    rw [show (add req reqs).2 = add_req req reqs from rfl, hsplit]
    exact add_req_replace_first req r l₁ l₂ hr hl
  · exact countName_add_req req reqs
  · intro h
    simp [remove, h]
  · intro h
    refine ⟨by simp [remove, h], by simp [remove, h], ?_⟩
    simp only [remove, h, if_true, countName]
    rw [List.countP_eq_zero]
    intro a ha
    have := List.of_mem_filter ha
    simp only [Bool.not_eq_eq_eq_not, Bool.not_true] at this ⊢
    simp [this]

/-- Witness for C8 at concrete inputs: adding a new name appends it and a
remove with no match returns `False`; adding an existing name replaces it in
place, and removing a present name returns `True` and drops it. -/
theorem C8_witness :
    (add ⟨some "bar", none, none, "bar==1"⟩
        [⟨some "foo", none, none, "foo==1"⟩]).2
      = [⟨some "foo", none, none, "foo==1"⟩] ++ [⟨some "bar", none, none, "bar==1"⟩]
    ∧ remove ⟨some "bar", none, none, "bar==1"⟩
        [⟨some "foo", none, none, "foo==1"⟩]
      = (false, [⟨some "foo", none, none, "foo==1"⟩])
    ∧ (add ⟨some "foo", none, none, "foo==2"⟩
        [⟨some "foo", none, none, "foo==1"⟩]).2
      = [] ++ ⟨some "foo", none, none, "foo==2"⟩ :: []
    ∧ countName (some "foo")
        (remove ⟨some "foo", none, none, "foo==1"⟩
          [⟨some "foo", none, none, "foo==1"⟩]).2 = 0 :=
  ⟨(C8_requirements_ops ⟨some "bar", none, none, "bar==1"⟩
      [⟨some "foo", none, none, "foo==1"⟩]).2.1 (by decide),
   (C8_requirements_ops ⟨some "bar", none, none, "bar==1"⟩
      [⟨some "foo", none, none, "foo==1"⟩]).2.2.2.2.1 (by decide),
   (C8_requirements_ops ⟨some "foo", none, none, "foo==2"⟩
      [⟨some "foo", none, none, "foo==1"⟩]).2.2.1 []
      ⟨some "foo", none, none, "foo==1"⟩ [] rfl rfl (by decide),
   ((C8_requirements_ops ⟨some "foo", none, none, "foo==1"⟩
      [⟨some "foo", none, none, "foo==1"⟩]).2.2.2.2.2 (by decide)).2.2⟩

/-- C1 counterexample: the claim as stated fails on a `NetBoxDBBackup` record
that violates no uniqueness and no string format: already persisted (so
unique), storage environment set, crontab accepted by the parser, but
retention count 31.  `clean` rejects it, and the reason is a numeric range
check, neither uniqueness nor a string-format violation. -/
theorem C1_counterexample :
    NetBoxDBBackup_clean ⟨"storage-env", "@daily", 31, true, true⟩
        (fun _ => true)
      = some DBBackupCleanError.tooManyBackups
    ∧ DBBackupCleanError.isUniquenessOrFormat DBBackupCleanError.tooManyBackups
      = false := by
  constructor
  · rfl
  · rfl

/-- C1 (amended): the validation of `NetBoxConfiguration` accepts a record iff
it is unique, its environment name has no dot, the remote environment exists
when the record is persisted, the storage environment (when set) exists, and
the license (when set) carries a GitHub token prefix; the validation of
`NetBoxDBBackup` accepts a record iff it is unique, the linked configuration
has a storage environment, the retention count lies in 1..30, and the crontab
expression parses.  Beyond uniqueness and string-format checks, the entities
thus also carry remote-existence, cross-record storage and numeric range
invariants. -/
theorem C1_clean_characterization (cfg : NetBoxConfigurationState)
    (db : NetBoxDBBackupState) (envExists cronValid : String → Bool) :
    (NetBoxConfiguration_clean cfg envExists = none ↔
      (¬(cfg.anotherExists = true ∧ cfg.hasPk = false)
       ∧ cfg.env_name.data.contains '.' = false
       ∧ (cfg.hasPk = true → envExists cfg.env_name = true)
       ∧ (cfg.env_name_storage ≠ "" → envExists cfg.env_name_storage = true)
       ∧ licenseInvalid cfg.license = false))
    ∧ (NetBoxDBBackup_clean db cronValid = none ↔
      (¬(db.anotherExists = true ∧ db.hasPk = false)
       ∧ db.envNameStorage ≠ ""
       ∧ 1 ≤ db.keepBackups ∧ db.keepBackups ≤ 30
       ∧ cronValid db.crontab = true)) := by
  constructor
  · rw [NetBoxConfiguration_clean]
    split_ifs with h1 h2 h3 h4 h5 <;> simp_all
  · rw [NetBoxDBBackup_clean]
    split_ifs with h1 h2 h3 h4 h5 <;> (simp_all; try omega)

/-- Witness for C1 at concrete records: a fresh configuration with no dot in
the environment name, no storage environment and no license is accepted, and a
persisted backup schedule with storage set, a parseable crontab and retention
count 3 is accepted. -/
theorem C1_witness :
    NetBoxConfiguration_clean ⟨"k", "", none, "envname", false, false⟩
        (fun _ => false) = none
    ∧ NetBoxDBBackup_clean ⟨"storage-env", "@daily", 3, true, true⟩
        (fun _ => true) = none :=
  ⟨(C1_clean_characterization ⟨"k", "", none, "envname", false, false⟩
      ⟨"storage-env", "@daily", 3, true, true⟩ (fun _ => false)
      (fun _ => true)).1.mpr (by decide),
   (C1_clean_characterization ⟨"k", "", none, "envname", false, false⟩
      ⟨"storage-env", "@daily", 3, true, true⟩ (fun _ => false)
      (fun _ => true)).2.mpr (by decide)⟩

/-- C10: with `include_patch` left at its default of `False`, `get_upgrades`
returns exactly the non-prerelease Docker tags (parsed from names starting
with `v`) that compare strictly greater than the currently running version,
each parsed tag contributing exactly one occurrence, and
`is_upgrade_available` returns `True` iff at least one such tag exists. -/
theorem C10_upgrades (names : List String) (current_version : SemVer) :
    (get_upgrades false (get_docker_tags names) current_version
      = (get_docker_tags names).filter (fun t => vgt t current_version))
    ∧ (∀ v, List.count v
          (get_upgrades false (get_docker_tags names) current_version)
        = if vgt v current_version then List.count v (get_docker_tags names)
          else 0)
    ∧ (∀ v, v ∈ get_docker_tags names ↔
        ∃ n ∈ names, n.data.head? = some 'v'
          ∧ parseVersion (String.mk (n.data.dropWhile (fun c => c = 'v')))
              = some v
          ∧ v.prerelease = [])
    ∧ (is_upgrade_available (get_docker_tags names) current_version = true ↔
        ∃ v ∈ get_docker_tags names, vgt v current_version = true) := by
  have h1 : get_upgrades false (get_docker_tags names) current_version
      = (get_docker_tags names).filter (fun t => vgt t current_version) := by
    have h0 : get_upgrades false (get_docker_tags names) current_version
        = (get_docker_tags names).foldl
            (fun acc x => if vgt x current_version then acc ++ [x] else acc)
            [] := by
      simp [get_upgrades]
    rw [h0, foldl_append_ite_eq_filter]
  refine ⟨h1, ?_, ?_, ?_⟩
  · intro v
    rw [h1]
    by_cases hv : vgt v current_version = true
    · rw [if_pos hv]
      exact List.count_filter hv
    · rw [if_neg hv]
      rw [List.count_eq_zero]
      intro hmem
      exact hv ((List.mem_filter.mp hmem).2)
  · intro v
    constructor
    · intro hv
      obtain ⟨n, hn, hf⟩ := List.mem_filterMap.mp hv
      obtain ⟨hn2, hq⟩ := List.mem_filter.mp hn
      cases hp : parseVersion (String.mk (n.data.dropWhile (fun c => c = 'v'))) with
      | none => rw [hp] at hf; simp at hf
      | some ver =>
          rw [hp] at hf
          dsimp only at hf
          by_cases he : ver.prerelease.isEmpty
          · rw [if_pos he] at hf
            obtain rfl : ver = v := by cases hf; rfl
            refine ⟨n, hn2, ?_, hp, ?_⟩
            · exact eq_of_beq hq
            · exact List.isEmpty_iff.mp he
          · rw [if_neg he] at hf
            cases hf
    · rintro ⟨n, hn, hq, hp, hpre⟩
      refine List.mem_filterMap.mpr ⟨n, List.mem_filter.mpr ⟨hn, ?_⟩, ?_⟩
      · exact beq_iff_eq.mpr hq
      · rw [hp]
        simp [hpre]
  · rw [is_upgrade_available, h1]
    rcases hfe : List.filter (fun t => vgt t current_version)
        (get_docker_tags names) with _ | ⟨x, xs⟩
    · simp only [List.isEmpty_nil]
      constructor
      · intro h
        simp at h
      · rintro ⟨v, hv, hgt⟩
        have hm : v ∈ List.filter (fun t => vgt t current_version)
            (get_docker_tags names) := List.mem_filter.mpr ⟨hv, hgt⟩
        rw [hfe] at hm
        cases hm
    · simp only [List.isEmpty_cons]
      constructor
      · intro _
        have hx : x ∈ List.filter (fun t => vgt t current_version)
            (get_docker_tags names) := by
          rw [hfe]
          exact List.mem_cons_self x xs
        obtain ⟨hx1, hx2⟩ := List.mem_filter.mp hx
        exact ⟨x, hx1, hx2⟩
      · intro _
        rfl

/-- Witness for C10 at a concrete Docker response: names `v4.1.0` (a release
newer than the current 4.0.0), `v4.2.0-beta1` (a prerelease, excluded) and
`latest` (not a `v` tag); an upgrade is reported available. -/
theorem C10_witness :
    is_upgrade_available (get_docker_tags ["v4.1.0", "v4.2.0-beta1", "latest"])
      ⟨4, 0, 0, [], none⟩ = true :=
  (C10_upgrades ["v4.1.0", "v4.2.0-beta1", "latest"] ⟨4, 0, 0, [], none⟩).2.2.2.mpr
    ⟨⟨4, 1, 0, [], none⟩, by decide, by decide⟩

/-- C3 counterexample: the claim as stated fails because `lru_cache` attaches
the caches to the methods, not to the instances: with two live instances (as
`NetBoxConfiguration.paas` creates for the main and storage environments),
alternating `_get_env_info` calls evict each other from the single-slot cache,
so instance 0's repeated calls perform the remote `GetEnvInfo` twice, without
any `clear_cache` in between. -/
theorem C3_counterexample :
    countEnvInfoCalls 0 (runOps initState
      [CacheOp.getEnvInfo 0, CacheOp.getEnvInfo 1, CacheOp.getEnvInfo 0]).2 = 2
    ∧ ([CacheOp.getEnvInfo 0, CacheOp.getEnvInfo 1,
        CacheOp.getEnvInfo 0].contains CacheOp.clearCache) = false := by
  constructor
  · rfl
  · rfl

/-- C3 (amended): the two `lru_cache` caches are shared across PaaS/IaaS
instances; for every call sequence confined to a single instance and free of
`clear_cache`, repeated `_get_env_info` calls perform the remote `GetEnvInfo`
at most once, and repeated `_get_env_var` calls perform the remote
`GetContainerEnvVarsByGroup` at most once per node group when at most 10
distinct groups are requested; `clear_cache` empties both caches (for every
instance), after which the next call of each kind performs its remote call
again. -/
theorem C3_cache_bounds :
    (∀ (i : Nat) (ops : List CacheOp), ops.all (opOfInst i) = true →
      countEnvInfoCalls i (runOps initState ops).2 ≤ 1)
    ∧ (∀ (i : Nat) (g : String) (ops : List CacheOp),
        ops.all (opOfInst i) = true →
        (opGroups ops).dedup.length ≤ 10 →
        countEnvVarCalls i g (runOps initState ops).2 ≤ 1)
    ∧ (∀ s : CacheState, step s CacheOp.clearCache = (initState, []))
    ∧ (∀ i : Nat, (step initState (CacheOp.getEnvInfo i)).2
        = [RemoteCall.getEnvInfoCall i])
    ∧ (∀ (i : Nat) (g : String), (step initState (CacheOp.getEnvVar i g)).2
        = [RemoteCall.getEnvVarCall i g]) := by
  refine ⟨?_, ?_, ?_, ?_, ?_⟩
  · intro i ops hall
    exact envInfo_calls_le_one i ops initState hall
  · intro i g ops hall hlen
    have h := envVar_calls_bound i g ops [] none hall List.nodup_nil
      (by simpa using hlen)
    simpa using h
  · intro s
    rfl
  · intro i
    rfl
  · intro i g
    rfl

/-- Witness for C3 at concrete call sequences of a single instance: two
`_get_env_info` calls and two `_get_env_var` calls for the `cp` group each
perform at most one remote call. -/
theorem C3_witness :
    countEnvInfoCalls 0 (runOps initState
      [CacheOp.getEnvInfo 0, CacheOp.getEnvInfo 0]).2 ≤ 1
    ∧ countEnvVarCalls 0 "cp" (runOps initState
      [CacheOp.getEnvVar 0 "cp", CacheOp.getEnvVar 0 "cp"]).2 ≤ 1 :=
  ⟨C3_cache_bounds.1 0 [CacheOp.getEnvInfo 0, CacheOp.getEnvInfo 0] (by decide),
   C3_cache_bounds.2.1 0 "cp"
     [CacheOp.getEnvVar 0 "cp", CacheOp.getEnvVar 0 "cp"]
     (by decide) (by decide)⟩

end NetBoxPaaS
